import Mathlib

/-!
Verification of the pomelo directory-bookmarking utility (`src/main.rs`).

The development shallowly embeds the program: the `Bookmark`/`Config` data
model, the TOML (de)serialization boundary used by `load_or_initialize_config`
and `save_config` (modelled concretely for the one schema the program uses:
a `bookmarks` array of `{alias, path}` tables, with TOML basic-string
escaping), the in-memory list operations performed by the `Add`, `Remove`,
`Edit`, `List` and `Jump` arms of `main`, and a whole-invocation function
`runMain` over an explicit file-contents state.

Conventions: the config file's state is `Option String` (`none` = absent or
unreadable, `some s` = readable with contents `s`); a process abort (Rust
`panic!`/`unwrap` on malformed config) is the `none` of an outer `Option`.
-/

namespace Pomelo

/-- `struct Bookmark { alias: String, path: PathBuf }` from `src/main.rs`.
The path is modelled as its string form (it is serialized as a TOML string). -/
structure Bookmark where
  «alias» : String
  path : String
deriving DecidableEq, Repr

/-- `struct Config { bookmarks: Vec<Bookmark> }` from `src/main.rs`. -/
structure Config where
  bookmarks : List Bookmark
deriving DecidableEq, Repr

/-! ## The serialization boundary (`toml::to_string` / `toml::from_str`)

The `toml` crate is a dependency, not code of this repository; these
definitions model its behaviour on the one schema the program serializes:
`Config { bookmarks: Vec<Bookmark> }` becomes `bookmarks = []` when the
vector is empty, and otherwise one `[[bookmarks]]` table per bookmark with
`alias` and `path` basic strings, escaped per TOML. -/

/-- TOML basic-string escaping of a single character. -/
def escapeChar (c : Char) : List Char :=
  if c = '\"' then ['\\', '\"']
  else if c = '\\' then ['\\', '\\']
  else if c = '\n' then ['\\', 'n']
  else if c = '\t' then ['\\', 't']
  else if c = '\r' then ['\\', 'r']
  else [c]

/-- TOML basic-string escaping of a whole string (as a character list). -/
def escapeStr : List Char → List Char
  | [] => []
  | c :: cs => escapeChar c ++ escapeStr cs

/-- The literal opening a serialized bookmark table, up to the opening quote
of the alias value. -/
def hdrL : List Char := "[[bookmarks]]\nalias = \"".data

/-- The literal between the alias value's closing quote and the opening quote
of the path value. -/
def midL : List Char := "\npath = \"".data

/-- One serialized `[[bookmarks]]` table. -/
def encodeBookmark (b : Bookmark) : List Char :=
  hdrL ++ escapeStr b.«alias».data ++ '\"' :: midL ++
    escapeStr b.path.data ++ '\"' :: ['\n']

/-- The serialized form of a non-empty bookmark list: its tables in order. -/
def encodeTables : List Bookmark → List Char
  | [] => []
  | b :: bs => encodeBookmark b ++ encodeTables bs

/-- The serialized form of an empty `bookmarks` array. -/
def emptyTablesL : String := "bookmarks = []\n"

/-- Model of `toml::to_string(config)` for the program's `Config` schema. -/
def tomlToString (config : Config) : String :=
  match config.bookmarks with
  | [] => emptyTablesL
  | _ :: _ => ⟨encodeTables config.bookmarks⟩

/-- Undo `escapeChar`: the character denoted by the escape `\x` for each
escape the encoder emits; other escapes are rejected. -/
def unescapeChar (c : Char) : Option Char :=
  if c = '\"' then some '\"'
  else if c = '\\' then some '\\'
  else if c = 'n' then some '\n'
  else if c = 't' then some '\t'
  else if c = 'r' then some '\r'
  else none

/-- Parse a TOML basic-string body up to and including its closing quote,
returning the unescaped contents and the rest of the input. -/
def parseQuoted : List Char → Option (List Char × List Char)
  | [] => none
  | c :: rest =>
    if c = '\"' then some ([], rest)
    else if c = '\\' then
      match rest with
      | [] => none
      | e :: rest2 =>
        match unescapeChar e with
        | none => none
        | some d =>
          match parseQuoted rest2 with
          | none => none
          | some (s, r) => some (d :: s, r)
    else
      match parseQuoted rest with
      | none => none
      | some (s, r) => some (c :: s, r)

/-- Strip an expected literal from the front of the input. -/
def stripPfx : List Char → List Char → Option (List Char)
  | [], s => some s
  | _ :: _, [] => none
  | p :: ps, c :: cs => if c = p then stripPfx ps cs else none

/-- Parse one `[[bookmarks]]` table, returning the bookmark and the rest. -/
def parseTable (s : List Char) : Option (Bookmark × List Char) :=
  match stripPfx hdrL s with
  | none => none
  | some r1 =>
    match parseQuoted r1 with
    | none => none
    | some (a, r2) =>
      match stripPfx midL r2 with
      | none => none
      | some r3 =>
        match parseQuoted r3 with
        | none => none
        | some (p, r4) =>
          match stripPfx ['\n'] r4 with
          | none => none
          | some r5 => some ({ «alias» := ⟨a⟩, path := ⟨p⟩ }, r5)

/-- Parse a sequence of `[[bookmarks]]` tables to the end of input.
The fuel argument only bounds recursion; `tomlFromStr` supplies enough. -/
def parseTables (fuel : Nat) (s : List Char) : Option (List Bookmark) :=
  if s = [] then some []
  else
    match fuel with
    | 0 => none
    | f + 1 =>
      match parseTable s with
      | none => none
      | some (b, r) =>
        match parseTables f r with
        | none => none
        | some bs => some (b :: bs)

/-- Model of `toml::from_str::<Config>(s)`: `none` models a deserialization
error (on which the program's `.unwrap()` panics). The empty string is an
error (`Config` has a required `bookmarks` field). -/
def tomlFromStr (s : String) : Option Config :=
  if s = emptyTablesL then some { bookmarks := [] }
  else if s.data = [] then none
  else
    match parseTables s.data.length s.data with
    | none => none
    | some bs => some { bookmarks := bs }

/-! ## ConfigStore (`load_or_initialize_config`, `save_config`)

The file-contents state is `Option String`: `none` models `fs::read_to_string`
failing (file absent or unreadable), `some s` models a successful read of
contents `s`. -/

/-- `load_or_initialize_config` from `src/main.rs`: on a successful read,
`toml::from_str(&contents).unwrap()` (the outer `none` models the panic on a
deserialization error); on a read error, `Config { bookmarks: Vec::new() }`. -/
def load_or_initialize_config (file : Option String) : Option Config :=
  match file with
  | some contents => tomlFromStr contents
  | none => some { bookmarks := [] }

/-- `save_config` from `src/main.rs`: serializes the config with
`toml::to_string` and writes it to the config file (creating directory and
file as needed); the result is the file's new contents. -/
def save_config (config : Config) : String :=
  tomlToString config

/-! ## The bookmark-list operations of `main`'s match arms -/

/-- `Iterator::position(p)` as used by the `Remove` arm:
index of the first element satisfying `p`. -/
def position (p : Bookmark → Bool) : List Bookmark → Option Nat
  | [] => none
  | b :: bs => if p b then some 0 else (position p bs).map (· + 1)

/-- `Vec::remove(index)` as used by the `Remove` arm: deletes the element at
`index`, shifting the rest left (the index supplied by `position` is in range). -/
def removeAt : List Bookmark → Nat → List Bookmark
  | [], _ => []
  | _ :: bs, 0 => bs
  | b :: bs, n + 1 => b :: removeAt bs n

/-- The `Remove` arm's mutation: find the first bookmark whose alias equals
`a` and delete it; the Bool reports whether one was found (which message is
printed). -/
def removeBookmark (bs : List Bookmark) (a : String) : List Bookmark × Bool :=
  match position (fun b => b.«alias» == a) bs with
  | some index => (removeAt bs index, true)
  | none => (bs, false)

/-- The `Edit` arm's mutation: `iter_mut().find(|b| b.alias == *alias)` and,
if found, `bookmark.alias = new.clone()` in place; the Bool reports whether a
bookmark was found. -/
def renameBookmark (bs : List Bookmark) (a new : String) : List Bookmark × Bool :=
  match bs with
  | [] => ([], false)
  | b :: rest =>
    if b.«alias» == a then ({ b with «alias» := new } :: rest, true)
    else (b :: (renameBookmark rest a new).1, (renameBookmark rest a new).2)

/-- The `Add` arm's mutation: `config.bookmarks.push(Bookmark { alias, path })`. -/
def addBookmark (bs : List Bookmark) (a : String) (path : String) : List Bookmark :=
  bs ++ [{ «alias» := a, path := path }]

/-- The `List` arm's per-bookmark output lines, with a 1-based index. -/
def listLines : Nat → List Bookmark → List String
  | _, [] => []
  | index, b :: bs =>
    let a := b.«alias»
    let p := b.path
    s!"{index + 1}. Alias: '{a}', Path: '{p}'" :: listLines (index + 1) bs

/-! ## `main`: one whole invocation -/

/-- The `Commands` enum of `src/main.rs` (each variant's parsed arguments). -/
inductive Commands where
  | Add (a : String)
  | Remove (a : String)
  | List
  | Edit (a new : String)
  | Jump (a : String)
deriving DecidableEq, Repr

/-- The observable outcome of one invocation: the config file's contents
afterwards, and the lines printed to stdout. -/
structure ProcResult where
  file : Option String
  output : List String
deriving DecidableEq, Repr

/-- One whole invocation of `main`: load the config from `file`, run the
selected command's arm (for `Add`, `current_dir` is the result of
`env::current_dir()`), and, in the arms that do so, save. The outer `none`
models the panic when the config file exists but fails to deserialize. -/
def runMain (cmd : Commands) (file : Option String) (current_dir : String) :
    Option ProcResult :=
  match load_or_initialize_config file with
  | none => none
  | some config =>
    match cmd with
    | .Add a =>
      let bookmarks := addBookmark config.bookmarks a current_dir
      some { file := some (save_config { bookmarks := bookmarks })
             output := [s!"Added bookmark with alias '{a}'"] }
    | .Remove a =>
      let (bookmarks, found) := removeBookmark config.bookmarks a
      some { file := some (save_config { bookmarks := bookmarks })
             output := [if found then s!"Removed bookmark with alias '{a}'"
                        else s!"No bookmark found with alias '{a}'"] }
    | .Edit a new =>
      let (bookmarks, found) := renameBookmark config.bookmarks a new
      some { file := some (save_config { bookmarks := bookmarks })
             output := [if found then s!"Updated alias '{a}' to '{new}'"
                        else s!"No bookmark found with alias '{a}'"] }
    | .List =>
      some { file := file
             output := if config.bookmarks.isEmpty then ["You have no bookmarks."]
                       else "Your bookmarks:" :: listLines 0 config.bookmarks }
    | .Jump _ =>
      some { file := file, output := [] }

/-! ## Serialization round-trip -/

theorem stripPfx_append (p r : List Char) : stripPfx p (p ++ r) = some r := by
  induction p with
  | nil => rfl
  | cons c cs ih => simp [stripPfx, ih]

theorem parseQuoted_quote (s : List Char) : parseQuoted ('\"' :: s) = some ([], s) := by
  rw [parseQuoted.eq_def]; simp

theorem parseQuoted_escape_step (e d : Char) (hd : unescapeChar e = some d)
    (X s r : List Char) (hX : parseQuoted X = some (s, r)) :
    parseQuoted ('\\' :: e :: X) = some (d :: s, r) := by
  rw [parseQuoted.eq_def]; simp [hd, hX]

theorem parseQuoted_escape (s r : List Char) :
    parseQuoted (escapeStr s ++ '\"' :: r) = some (s, r) := by
  induction s with
  | nil => simp [escapeStr, parseQuoted_quote]
  | cons c cs ih =>
    by_cases h1 : c = '\"'
    · subst h1
      rw [show escapeStr ('\"' :: cs) ++ '\"' :: r =
        '\\' :: '\"' :: (escapeStr cs ++ '\"' :: r) by simp [escapeStr, escapeChar]]
      exact parseQuoted_escape_step '\"' '\"' (by decide) _ _ _ ih
    · by_cases h2 : c = '\\'
      · subst h2
        rw [show escapeStr ('\\' :: cs) ++ '\"' :: r =
          '\\' :: '\\' :: (escapeStr cs ++ '\"' :: r) by simp [escapeStr, escapeChar]]
        exact parseQuoted_escape_step '\\' '\\' (by decide) _ _ _ ih
      · by_cases h3 : c = '\n'
        · subst h3
          rw [show escapeStr ('\n' :: cs) ++ '\"' :: r =
            '\\' :: 'n' :: (escapeStr cs ++ '\"' :: r) by simp [escapeStr, escapeChar]]
          exact parseQuoted_escape_step 'n' '\n' (by decide) _ _ _ ih
        · by_cases h4 : c = '\t'
          · subst h4
            rw [show escapeStr ('\t' :: cs) ++ '\"' :: r =
              '\\' :: 't' :: (escapeStr cs ++ '\"' :: r) by simp [escapeStr, escapeChar]]
            exact parseQuoted_escape_step 't' '\t' (by decide) _ _ _ ih
          · by_cases h5 : c = '\r'
            · subst h5
              rw [show escapeStr ('\r' :: cs) ++ '\"' :: r =
                '\\' :: 'r' :: (escapeStr cs ++ '\"' :: r) by simp [escapeStr, escapeChar]]
              exact parseQuoted_escape_step 'r' '\r' (by decide) _ _ _ ih
            · rw [show escapeStr (c :: cs) = escapeChar c ++ escapeStr cs from rfl,
                show escapeChar c = [c] by simp [escapeChar, h1, h2, h3, h4, h5]]
              rw [List.cons_append, List.nil_append, parseQuoted.eq_def]
              simp [h1, h2, ih]

theorem parseTable_encode (b : Bookmark) (r : List Char) :
    parseTable (encodeBookmark b ++ r) = some (b, r) := by
  simp only [encodeBookmark, List.append_assoc, List.cons_append]
  simp [parseTable, stripPfx_append, parseQuoted_escape, stripPfx]

theorem encodeBookmark_head (b : Bookmark) (r : List Char) :
    (encodeBookmark b ++ r).head? = some '[' := rfl

theorem length_le_encodeTables (bs : List Bookmark) :
    bs.length ≤ (encodeTables bs).length := by
  induction bs with
  | nil => simp [encodeTables]
  | cons b t ih =>
    have hb : 1 ≤ (encodeBookmark b).length := by
      simp [encodeBookmark, hdrL]
    simp only [encodeTables, List.length_cons, List.length_append]
    omega

theorem parseTables_encode (bs : List Bookmark) (fuel : Nat)
    (h : bs.length ≤ fuel) : parseTables fuel (encodeTables bs) = some bs := by
  induction bs generalizing fuel with
  | nil => simp [encodeTables, parseTables.eq_def]
  | cons b t ih =>
    cases fuel with
    | zero => simp at h
    | succ f =>
      have hne : encodeBookmark b ++ encodeTables t ≠ [] := by
        intro hc
        have := congrArg List.head? hc
        rw [encodeBookmark_head] at this
        simp at this
      rw [show encodeTables (b :: t) = encodeBookmark b ++ encodeTables t from rfl,
        parseTables.eq_def, if_neg hne]
      simp [parseTable_encode, ih f (by simpa using h)]

/-- Helper: the serialization of a non-empty bookmark list. -/
theorem tomlToString_cons (b : Bookmark) (t : List Bookmark) :
    tomlToString { bookmarks := b :: t } = ⟨encodeTables (b :: t)⟩ := rfl

/-- C1. Round-trip persistence: serializing any bookmark collection with
`save_config` and loading the resulting file contents with
`load_or_initialize_config` reproduces the collection exactly — the same
aliases, the same paths, in the same order (the file state between the save
and the load being exactly what the save wrote). -/
theorem save_load_roundtrip (c : Config) :
    load_or_initialize_config (some (save_config c)) = some c := by
  rcases c with ⟨bs⟩
  cases bs with
  | nil => rfl
  | cons b t =>
    show tomlFromStr (tomlToString { bookmarks := b :: t }) = _
    rw [tomlToString_cons]
    have hne : (⟨encodeTables (b :: t)⟩ : String) ≠ emptyTablesL := by
      intro hc
      have hdata : encodeTables (b :: t) = emptyTablesL.data :=
        congrArg String.data hc
      have hhead := congrArg List.head? hdata
      rw [show encodeTables (b :: t) = encodeBookmark b ++ encodeTables t from rfl,
        encodeBookmark_head] at hhead
      simp [emptyTablesL] at hhead
    have hnil : (⟨encodeTables (b :: t)⟩ : String).data ≠ [] := by
      show encodeTables (b :: t) ≠ []
      rw [show encodeTables (b :: t) = encodeBookmark b ++ encodeTables t from rfl]
      intro hc
      have := congrArg List.head? hc
      rw [encodeBookmark_head] at this
      simp at this
    unfold tomlFromStr
    rw [if_neg hne, if_neg hnil]
    rw [parseTables_encode _ _ (length_le_encodeTables _)]

/-! ## Remove / rename semantics -/

theorem removeBookmark_match (m : Bookmark) (r : List Bookmark) (a : String)
    (h : m.«alias» = a) : removeBookmark (m :: r) a = (r, true) := by
  simp [removeBookmark, position, removeAt, h]

theorem removeBookmark_skip (x : Bookmark) (t : List Bookmark) (a : String)
    (h : x.«alias» ≠ a) :
    removeBookmark (x :: t) a =
      (x :: (removeBookmark t a).1, (removeBookmark t a).2) := by
  rw [removeBookmark, removeBookmark]
  simp only [position, beq_iff_eq, h, if_false]
  cases hp : position (fun b => b.«alias» == a) t with
  | none => simp
  | some i => simp [removeAt]

theorem renameBookmark_match (m : Bookmark) (r : List Bookmark) (a new : String)
    (h : m.«alias» = a) :
    renameBookmark (m :: r) a new = ({ m with «alias» := new } :: r, true) := by
  simp [renameBookmark, h]

theorem renameBookmark_skip (x : Bookmark) (t : List Bookmark) (a new : String)
    (h : x.«alias» ≠ a) :
    renameBookmark (x :: t) a new =
      (x :: (renameBookmark t a new).1, (renameBookmark t a new).2) := by
  simp [renameBookmark, h]

theorem removeBookmark_notfound (bs : List Bookmark) (a : String)
    (h : ∀ x ∈ bs, x.«alias» ≠ a) : removeBookmark bs a = (bs, false) := by
  induction bs with
  | nil => rfl
  | cons x t ih =>
    rw [removeBookmark_skip x t a (h x (by simp)),
      ih fun y hy => h y (by simp [hy])]

theorem renameBookmark_notfound (bs : List Bookmark) (a new : String)
    (h : ∀ x ∈ bs, x.«alias» ≠ a) : renameBookmark bs a new = (bs, false) := by
  induction bs with
  | nil => rfl
  | cons x t ih =>
    rw [renameBookmark_skip x t a new (h x (by simp)),
      ih fun y hy => h y (by simp [hy])]

/-- C2. Remove has first-match semantics with a not-found no-op: if no
bookmark's alias equals `a`, the collection is returned completely unchanged
and not-found is reported (`false`, printed as "No bookmark found with alias
..."); if the collection splits as `l ++ m :: r` with every bookmark of `l`
not matching and `m` matching (`m` is the first, lowest-index match), exactly
`m` is deleted, the relative order `l ++ r` of the rest is preserved, and
removal is reported (`true`). -/
theorem removeBookmark_first_match (bs : List Bookmark) (a : String) :
    ((∀ x ∈ bs, x.«alias» ≠ a) → removeBookmark bs a = (bs, false)) ∧
    (∀ l m r, bs = l ++ m :: r → (∀ x ∈ l, x.«alias» ≠ a) → m.«alias» = a →
      removeBookmark bs a = (l ++ r, true)) := by
  refine ⟨removeBookmark_notfound bs a, ?_⟩
  intro l m r hbs hl hm
  subst hbs
  induction l with
  | nil => simpa using removeBookmark_match m r a hm
  | cons x l' ih =>
    rw [List.cons_append, removeBookmark_skip x (l' ++ m :: r) a (hl x (by simp)),
      ih fun y hy => hl y (by simp [hy])]
    simp

/-- Witness for C2, at the spec's own example
`[("x", p1), ("y", p2), ("x", p3)]`: `remove("x")` deletes only the first
match and keeps the rest in order; and `remove("nonexistent")` on that
collection is a reported no-op. -/
theorem removeBookmark_first_match_witness :
    removeBookmark [⟨"x", "p1"⟩, ⟨"y", "p2"⟩, ⟨"x", "p3"⟩] "x" =
      ([⟨"y", "p2"⟩, ⟨"x", "p3"⟩], true) ∧
    removeBookmark [⟨"x", "p1"⟩, ⟨"y", "p2"⟩, ⟨"x", "p3"⟩] "nonexistent" =
      ([⟨"x", "p1"⟩, ⟨"y", "p2"⟩, ⟨"x", "p3"⟩], false) :=
  ⟨(removeBookmark_first_match _ "x").2 [] ⟨"x", "p1"⟩ [⟨"y", "p2"⟩, ⟨"x", "p3"⟩]
      rfl (by simp) rfl,
    (removeBookmark_first_match _ "nonexistent").1 (by decide)⟩

/-- C3. Rename has first-match, in-place semantics: if no bookmark's alias
equals `a`, the collection is returned completely unchanged and not-found is
reported (`false`); if the collection splits as `l ++ m :: r` with every
bookmark of `l` not matching and `m` matching (the first match), only `m`'s
alias field is replaced by `new` — its path and its position are kept and
every other bookmark is untouched — and the rename is reported (`true`). -/
theorem renameBookmark_first_match (bs : List Bookmark) (a new : String) :
    ((∀ x ∈ bs, x.«alias» ≠ a) → renameBookmark bs a new = (bs, false)) ∧
    (∀ l m r, bs = l ++ m :: r → (∀ x ∈ l, x.«alias» ≠ a) → m.«alias» = a →
      renameBookmark bs a new =
        (l ++ { «alias» := new, path := m.path } :: r, true)) := by
  refine ⟨renameBookmark_notfound bs a new, ?_⟩
  intro l m r hbs hl hm
  subst hbs
  induction l with
  | nil => simpa using renameBookmark_match m r a new hm
  | cons x l' ih =>
    rw [List.cons_append, renameBookmark_skip x (l' ++ m :: r) a new (hl x (by simp)),
      ih fun y hy => hl y (by simp [hy])]
    simp

/-- Witness for C3, at the spec's own example `[("x", p1), ("x", p2)]`:
`rename("x", "z")` yields `[("z", p1), ("x", p2)]`; and a not-found rename is
a reported no-op. -/
theorem renameBookmark_first_match_witness :
    renameBookmark [⟨"x", "p1"⟩, ⟨"x", "p2"⟩] "x" "z" =
      ([⟨"z", "p1"⟩, ⟨"x", "p2"⟩], true) ∧
    renameBookmark [⟨"x", "p1"⟩, ⟨"x", "p2"⟩] "w" "z" =
      ([⟨"x", "p1"⟩, ⟨"x", "p2"⟩], false) :=
  ⟨(renameBookmark_first_match _ "x" "z").2 [] ⟨"x", "p1"⟩ [⟨"x", "p2"⟩]
      rfl (by simp) rfl,
    (renameBookmark_first_match _ "w" "z").1 (by decide)⟩

/-- C4. Add is an unconditional append: for every collection of length `N`
and every alias and path — including an alias already present in the
collection — the result has length `N + 1`, its first `N` elements are the
original collection unchanged, and its last element is the new bookmark.
`addBookmark` is total and the `Add` arm of `runMain` always reports
success, so no error is ever reported. -/
theorem addBookmark_append (bs : List Bookmark) (a p : String) :
    (addBookmark bs a p).length = bs.length + 1 ∧
    (addBookmark bs a p).take bs.length = bs ∧
    (addBookmark bs a p).getLast? = some { «alias» := a, path := p } := by
  refine ⟨by simp [addBookmark], ?_, ?_⟩
  · simp [addBookmark, List.take_left]
  · simp [addBookmark]

/-! ## Load behaviour and whole-invocation properties -/

/-- C5. Load tolerates a missing or unreadable file: when
`fs::read_to_string` fails (file absent or unreadable — the `none` file
state), `load_or_initialize_config` returns the empty collection, as a
normal `some` result rather than an error. -/
theorem load_missing_yields_empty :
    load_or_initialize_config none = some { bookmarks := [] } := rfl

/-- C6. Load fails fatally on corrupt data: whenever the config file exists
and is readable but its contents do not deserialize as the expected schema
(`tomlFromStr` returns `none`), `load_or_initialize_config` aborts the
process during deserialization (the `.unwrap()` panic, modelled as `none`)
rather than returning any collection. -/
theorem load_corrupt_panics (s : String) (h : tomlFromStr s = none) :
    load_or_initialize_config (some s) = none := by
  simp [load_or_initialize_config, h]

/-- Witness for C6 at the unparseable contents `"garbage"`. -/
theorem load_corrupt_panics_witness :
    tomlFromStr "garbage" = none ∧
      load_or_initialize_config (some "garbage") = none :=
  ⟨by decide, load_corrupt_panics "garbage" (by decide)⟩

/-- C9. Jump is a no-op placeholder: whatever the alias, an invocation of
the `Jump` command (when the config loads, i.e. the process does not panic)
leaves the file state exactly as it was — nothing written, nothing created —
and produces no output at all: no resolved path and no not-found report. -/
theorem jump_is_noop (a : String) (file : Option String) (current_dir : String)
    (config : Config) (h : load_or_initialize_config file = some config) :
    runMain (.Jump a) file current_dir = some { file := file, output := [] } := by
  simp [runMain, h]

/-- Witness for C9: a jump with no config file present. -/
theorem jump_is_noop_witness :
    load_or_initialize_config none = some { bookmarks := [] } ∧
      runMain (.Jump "work") none "/d" = some { file := none, output := [] } :=
  ⟨rfl, jump_is_noop "work" none "/d" { bookmarks := [] } rfl⟩

/-- Counterexample to C7 as stated: starting from no config file, a remove
whose alias is not found does NOT leave the persisted state untouched — the
invocation ends with the config file existing (with an empty `bookmarks`
array), because the `Remove` arm calls `save_config` unconditionally. -/
theorem remove_notfound_creates_file_cex :
    runMain (.Remove "ghost") none "/d" =
      some { file := some emptyTablesL
             output := ["No bookmark found with alias 'ghost'"] } ∧
    (some emptyTablesL : Option String) ≠ none := by
  refine ⟨by decide, by simp⟩

/-- C7 as amended: loading itself creates no file — starting from no config
file, `load` yields the empty collection, and the non-saving arms (`List`,
`Jump`) end with the file still absent. But the `Remove` and `Edit` arms
call `save_config` unconditionally: a remove or rename whose alias is not
found leaves the in-memory collection unchanged yet still (re)writes the
config file with that unchanged collection's serialization — creating the
file if it did not exist. -/
theorem no_write_before_mutation_amended :
    load_or_initialize_config none = some { bookmarks := [] } ∧
    (∀ d, runMain .List none d =
      some { file := none, output := ["You have no bookmarks."] }) ∧
    (∀ a d, runMain (.Jump a) none d = some { file := none, output := [] }) ∧
    (∀ file config a d, load_or_initialize_config file = some config →
      (∀ x ∈ config.bookmarks, x.«alias» ≠ a) →
      runMain (.Remove a) file d =
        some { file := some (save_config config)
               output := [s!"No bookmark found with alias '{a}'"] }) ∧
    (∀ file config a new d, load_or_initialize_config file = some config →
      (∀ x ∈ config.bookmarks, x.«alias» ≠ a) →
      runMain (.Edit a new) file d =
        some { file := some (save_config config)
               output := [s!"No bookmark found with alias '{a}'"] }) := by
  refine ⟨rfl, fun d => rfl, fun a d => rfl, ?_, ?_⟩
  · intro file config a d h hna
    simp [runMain, h, removeBookmark_notfound config.bookmarks a hna]
  · intro file config a new d h hna
    simp [runMain, h, renameBookmark_notfound config.bookmarks a new hna]

/-- Witness for amended C7: a not-found remove with no config file present
writes the empty-array config file. -/
theorem no_write_before_mutation_amended_witness :
    runMain (.Remove "ghost") none "/cwd" =
      some { file := some (save_config { bookmarks := [] })
             output := ["No bookmark found with alias 'ghost'"] } :=
  no_write_before_mutation_amended.2.2.2.1 none { bookmarks := [] } "ghost" "/cwd"
    rfl (by simp)

/-- Counterexample to C8 as stated: the operations can produce bookmarks
with empty fields — `add` with an empty alias stores it verbatim, and
`rename` to the empty string installs an empty alias. -/
theorem empty_fields_reachable_cex :
    addBookmark [] "" "/home/u" = [{ «alias» := "", path := "/home/u" }] ∧
    renameBookmark [{ «alias» := "x", path := "/p" }] "x" "" =
      ([{ «alias» := "", path := "/p" }], true) := by
  refine ⟨rfl, by decide⟩

/-- C8 as amended: the data model and operations enforce no non-emptiness
invariant at all — `add` appends a bookmark carrying exactly the supplied
alias and path strings, empty or not, and `rename` installs the new alias
verbatim, so a bookmark with an empty alias (or path) is reachable. -/
theorem no_emptiness_validation (bs : List Bookmark) (p : String) :
    (addBookmark bs "" p).getLast? = some { «alias» := "", path := p } ∧
    ∀ b : Bookmark, (renameBookmark (b :: bs) b.«alias» "").1.head? =
      some { «alias» := "", path := b.path } := by
  constructor
  · simp [addBookmark]
  · intro b
    rw [renameBookmark_match b bs b.«alias» "" rfl]
    rfl

theorem renameBookmark_found (bs : List Bookmark) (a new : String)
    (ha : ∃ x ∈ bs, x.«alias» = a) : (renameBookmark bs a new).2 = true := by
  obtain ⟨x, hx, hxa⟩ := ha
  induction bs with
  | nil => simp at hx
  | cons y t ih =>
    by_cases hy : y.«alias» = a
    · rw [renameBookmark_match y t a new hy]
    · rw [renameBookmark_skip y t a new hy]
      rcases List.mem_cons.mp hx with rfl | hxt
      · exact absurd hxa hy
      · exact ih hxt

theorem renameBookmark_countP (bs : List Bookmark) (a b : String)
    (ha : ∃ x ∈ bs, x.«alias» = a) (hab : a ≠ b) :
    (renameBookmark bs a b).1.countP (fun x => x.«alias» == b) =
      bs.countP (fun x => x.«alias» == b) + 1 := by
  induction bs with
  | nil => simp at ha
  | cons y t ih =>
    by_cases hy : y.«alias» = a
    · rw [renameBookmark_match y t a b hy]
      simp [List.countP_cons, hy, hab]
    · rw [renameBookmark_skip y t a b hy]
      have hta : ∃ x ∈ t, x.«alias» = a := by
        obtain ⟨x, hx, hxa⟩ := ha
        rcases List.mem_cons.mp hx with rfl | hxt
        · exact absurd hxa hy
        · exact ⟨x, hxt, hxa⟩
      simp only [List.countP_cons, ih hta]
      omega

/-- C10. Rename performs no uniqueness check on the new alias: if some
bookmark has alias `a`, some bookmark has alias `b`, and `a ≠ b`, then
`rename(a, b)` succeeds and the result contains at least two bookmarks with
alias `b` (the rename adds exactly one more `b` than before) — duplicate
aliases are introduced, and by `renameBookmark_first_match` /
`removeBookmark_first_match` any subsequent first-match operation on `b`
acts on the earliest of them. -/
theorem rename_introduces_duplicates (bs : List Bookmark) (a b : String)
    (ha : ∃ x ∈ bs, x.«alias» = a) (hb : ∃ x ∈ bs, x.«alias» = b)
    (hab : a ≠ b) :
    (renameBookmark bs a b).2 = true ∧
    2 ≤ (renameBookmark bs a b).1.countP (fun x => x.«alias» == b) := by
  constructor
  · exact renameBookmark_found bs a b ha
  · have h1 := renameBookmark_countP bs a b ha hab
    have h2 : 0 < bs.countP (fun x => x.«alias» == b) := by
      obtain ⟨x, hx, hxb⟩ := hb
      exact List.countP_pos_iff.mpr ⟨x, hx, by simp [hxb]⟩
    omega

/-- Witness for C10: renaming `"a"` to `"b"` in `[("a", /1), ("b", /2)]`
succeeds and leaves two bookmarks aliased `"b"`. -/
theorem rename_introduces_duplicates_witness :
    (renameBookmark [⟨"a", "/1"⟩, ⟨"b", "/2"⟩] "a" "b").2 = true ∧
    2 ≤ (renameBookmark [⟨"a", "/1"⟩, ⟨"b", "/2"⟩] "a" "b").1.countP
        (fun x => x.«alias» == "b") :=
  rename_introduces_duplicates [⟨"a", "/1"⟩, ⟨"b", "/2"⟩] "a" "b"
    ⟨⟨"a", "/1"⟩, by simp, rfl⟩ ⟨⟨"b", "/2"⟩, by simp, rfl⟩ (by decide)

end Pomelo
